import Mathlib

/-!
# rbd-mirror `PoolWatcher::refresh_images`

A shallow embedding of `src/tools/rbd_mirror/PoolWatcher.cc`.

The storage cluster is an external collaborator.  One scan cycle sees it as a
snapshot: the outcome of every cluster call is a function of the call's
arguments (`Cluster`).  Return codes are C `int`s, modelled as `Int`.

The only loop of the scan that need not terminate is the paged directory
listing: it runs until a page is not exactly `max_read` entries long, and a
cluster that keeps answering with full pages keeps it running.  The loop is
therefore given a budget of `dir_list` calls (`fuel`); a scan that exhausts the
budget has not returned (`none`).
-/

namespace rbd.mirror

/-! ## Types used by the scan -/

/-- The errno constant `ENOENT`. -/
def ENOENT : Int := 2

/-- The enum `rbd_mirror_mode_t` of the librbd API. -/
inductive rbd_mirror_mode_t where
  | RBD_MIRROR_MODE_DISABLED
  | RBD_MIRROR_MODE_IMAGE
  | RBD_MIRROR_MODE_POOL
  deriving DecidableEq, Repr

/-- A `std::map<string, string>`: its entries, in strictly increasing key
order (what iteration yields). -/
structure StringMap where
  entries : List (String × String)
  sorted : entries.Pairwise (fun a b => a.1 < b.1)

/-- The call `pool_images.empty()`. -/
def StringMap.empty (m : StringMap) : Bool := m.entries.isEmpty

/-- The call `pool_images.size()`. -/
def StringMap.size (m : StringMap) : Nat := m.entries.length

/-- The expression `pool_images.rbegin()->first`, the greatest key (read only
when the map is not empty). -/
def StringMap.rbegin_first (m : StringMap) : String :=
  match m.entries.getLast? with
  | some e => e.1
  | none => ""

/-- The default-constructed (empty) `std::map<string, string>`. -/
def StringMap.nil : StringMap := ⟨[], List.Pairwise.nil⟩

/-- A `std::map<int64_t, set<string>>`, seen through its lookup. -/
abbrev ImageMap := Int → Option (Finset String)

/-- The default-constructed (empty) image map. -/
def ImageMap.nil : ImageMap := fun _ => none

/-- The assignment `images[pool_id] = std::move(image_ids)`. -/
def ImageMap.assign (images : ImageMap) (pool_id : Int) (image_ids : Finset String) :
    ImageMap :=
  fun k => if k = pool_id then some image_ids else images k

/-- The storage cluster as one scan sees it: the return code and the output
of each call made by `refresh_images`, as a function of the call's arguments.
An `IoCtx` is identified with the id of the pool it was created for. -/
structure Cluster where
  /-- The call `m_cluster->pool_list2(pools)`. -/
  pool_list2 : Int × List (Int × String)
  /-- The call `m_cluster->pool_get_base_tier(pool_id, &base_tier)`. -/
  pool_get_base_tier : Int → Int × Int
  /-- The call `m_cluster->ioctx_create2(pool_id, ioctx)`. -/
  ioctx_create2 : Int → Int
  /-- The call `librbd::mirror_mode_get(ioctx, &mirror_mode)`. -/
  mirror_mode_get : Int → Int × rbd_mirror_mode_t
  /-- The call `dir_list(&ioctx, RBD_DIRECTORY, last_read, max_read, &pool_images)`. -/
  dir_list : Int → String → Nat → Int × StringMap

/-- An event of `m_timer`: the delay it was added with and the argument its
callback passes to `refresh_images`. -/
structure TimerEvent (τ : Type) where
  after : τ
  reschedule : Bool
  deriving DecidableEq

/-- The members of `PoolWatcher` that `refresh_images` reads or writes;
`signals` counts the calls of `m_refresh_cond.Signal()`.  The type `τ` is the
type of the refresh interval (a `double` in the source; no arithmetic is done
on it). -/
structure PoolWatcher (τ : Type) where
  m_images : ImageMap
  m_stopping : Bool
  m_timer : List (TimerEvent τ)
  m_interval : τ
  signals : Nat

/-! ## The scan -/

/-- The local `int max_read = 1024`. -/
def max_read : Nat := 1024

/-- The assignment `r = pool_images.size()`: a `size_t` converted to `int`. -/
def int_of_size (n : Nat) : Int := ((n : Int) + 2 ^ 31) % 2 ^ 32 - 2 ^ 31

/-- The loop `for (auto& pair : pool_images) image_ids.insert(pair.second)`. -/
def insert_ids (pool_images : StringMap) (image_ids : Finset String) : Finset String :=
  pool_images.entries.foldl (fun acc pair => insert pair.2 acc) image_ids

/-- What the listing loop of one pool leaves behind: the last value of `r`,
the set `image_ids`, and the cursors `dir_list` was called with, in order. -/
structure Listing where
  r : Int
  image_ids : Finset String
  calls : List String

/-- The `do { ... } while (r == max_read)` loop of `refresh_images`, for the
directory `dl` of one pool, entered with `last_read` and `image_ids`; `calls`
records the cursors of the `dir_list` calls made so far.  `fuel` bounds the
number of `dir_list` calls.  The `continue` of the error branch jumps to the
loop condition. -/
def list_images (dl : String → Nat → Int × StringMap) :
    Nat → String → Finset String → List String → Option Listing
  | 0, _, _, _ => none
  | fuel + 1, last_read, image_ids, calls =>
    let res := dl last_read max_read
    let pool_images := res.2
    let r := if res.1 = -ENOENT then 0 else res.1
    let calls := calls ++ [last_read]
    if r < 0 then
      if r = (max_read : Int) then list_images dl fuel last_read image_ids calls
      else some ⟨r, image_ids, calls⟩
    else
      let image_ids := insert_ids pool_images image_ids
      let last_read := if !pool_images.empty then pool_images.rbegin_first else last_read
      let r := int_of_size pool_images.size
      if r = (max_read : Int) then list_images dl fuel last_read image_ids calls
      else some ⟨r, image_ids, calls⟩

/-- The state of the `for (auto kv : pools)` loop: the local map `images` and
the directory listings performed so far (pool id and cursor of each
`dir_list` call). -/
structure Scan where
  images : ImageMap
  dir_calls : List (Int × String)

/-- One iteration of the `for (auto kv : pools)` loop. -/
def scan_pool (fuel : Nat) (c : Cluster) (st : Scan) (kv : Int × String) : Option Scan :=
  let pool_id := kv.1
  let bt := c.pool_get_base_tier pool_id
  if bt.1 = -ENOENT then some st
  else if bt.1 < 0 then some st
  else if pool_id ≠ bt.2 then some st
  else
    let r := c.ioctx_create2 pool_id
    if r = -ENOENT then some st
    else if r < 0 then some st
    else
      let mm := c.mirror_mode_get pool_id
      if mm.1 < 0 then some st
      else if mm.2 = rbd_mirror_mode_t.RBD_MIRROR_MODE_DISABLED then some st
      else
        match list_images (c.dir_list pool_id) fuel "" ∅ [] with
        | none => none
        | some l =>
          let dir_calls := st.dir_calls ++ l.calls.map (fun cur => (pool_id, cur))
          if l.r > 0 then some ⟨st.images.assign pool_id l.image_ids, dir_calls⟩
          else some ⟨st.images, dir_calls⟩

/-- The `for (auto kv : pools)` loop. -/
def scan_pools (fuel : Nat) (c : Cluster) : List (Int × String) → Scan → Option Scan
  | [], st => some st
  | kv :: pools, st =>
    match scan_pool fuel c st kv with
    | none => none
    | some st => scan_pools fuel c pools st

/-- The tail of `refresh_images`, run under `m_lock`: install the new map,
re-arm the timer, signal. -/
def install {τ : Type} (images : ImageMap) (reschedule : Bool) (w : PoolWatcher τ) :
    PoolWatcher τ :=
  let w := { w with m_images := images }
  let w := if !w.m_stopping && reschedule then
      { w with m_timer := w.m_timer ++ [⟨w.m_interval, true⟩] }
    else w
  { w with signals := w.signals + 1 }

/-- The method `PoolWatcher::refresh_images(bool reschedule)`; `fuel` bounds
the `dir_list` calls of each pool.  The result is the watcher after the call,
with the directory listings the call performed. -/
def refresh_images {τ : Type} (fuel : Nat) (c : Cluster) (reschedule : Bool)
    (w : PoolWatcher τ) : Option (PoolWatcher τ × List (Int × String)) :=
  let r := c.pool_list2.1
  let pools := c.pool_list2.2
  if r < 0 then some (w, [])
  else
    match scan_pools fuel c pools ⟨ImageMap.nil, []⟩ with
    | none => none
    | some st => some (install st.images reschedule w, st.dir_calls)

/-- The destructor `PoolWatcher::~PoolWatcher`: set `m_stopping` and shut the
timer down, which cancels its pending events. -/
def destroy {τ : Type} (w : PoolWatcher τ) : PoolWatcher τ :=
  { w with m_stopping := true, m_timer := [] }

/-- The constructor `PoolWatcher::PoolWatcher`. -/
def PoolWatcher.init {τ : Type} (interval_seconds : τ) : PoolWatcher τ :=
  { m_images := ImageMap.nil, m_stopping := false, m_timer := [],
    m_interval := interval_seconds, signals := 0 }

/-! ## Auxiliary notions for the statements -/

/-- The pool is left out before its directory is listed: one of the `continue`
statements ahead of the listing loop is taken. -/
def skipped (c : Cluster) (pool_id : Int) : Prop :=
  (c.pool_get_base_tier pool_id).1 < 0 ∨ pool_id ≠ (c.pool_get_base_tier pool_id).2 ∨
  c.ioctx_create2 pool_id < 0 ∨ (c.mirror_mode_get pool_id).1 < 0 ∨
  (c.mirror_mode_get pool_id).2 = rbd_mirror_mode_t.RBD_MIRROR_MODE_DISABLED

instance (c : Cluster) (pool_id : Int) : Decidable (skipped c pool_id) := by
  unfold skipped; infer_instance

/-- The entry that one iteration of the pool loop writes for pool `k`. -/
def pool_entry (fuel : Nat) (c : Cluster) (k : Int) : Option (Finset String) :=
  match scan_pool fuel c ⟨ImageMap.nil, []⟩ (k, "") with
  | some st => st.images k
  | none => none

/-- Every iteration of the pool loop finishes its directory listing within
`fuel` calls of `dir_list`. -/
def listings_end (fuel : Nat) (c : Cluster) : Prop :=
  ∀ kv ∈ c.pool_list2.2, (scan_pool fuel c ⟨ImageMap.nil, []⟩ kv).isSome = true

/-- Modelled from the spec: the paged listing of a pool's format-2 image
directory, `(cursor, batch_size) → mapping name→id` (the body of
`cls_client::dir_list` is not among the sources): the first `n` entries of the
directory `dir` whose name comes after `cursor`, in key order. -/
def page_after (dir : StringMap) (cursor : String) (n : Nat) : StringMap :=
  ⟨(dir.entries.filter (fun e => decide (cursor < e.1))).take n,
    dir.sorted.sublist ((List.take_sublist _ _).trans (List.filter_sublist _))⟩

/-- The listing `dl` pages the directory `dir` faithfully and without error:
every call succeeds (a return code `-ENOENT` counts as success with what was
read) and returns the next up-to-`n` entries after the cursor. -/
def faithful_paging (dl : String → Nat → Int × StringMap) (dir : StringMap) : Prop :=
  ∀ cursor n, (0 ≤ (dl cursor n).1 ∨ (dl cursor n).1 = -ENOENT) ∧
    (dl cursor n).2.entries = (page_after dir cursor n).entries

/-- The set of the image ids of a directory. -/
def dir_ids (dir : StringMap) : Finset String := (dir.entries.map Prod.snd).toFinset

/-- The map that a scan of the cluster `c` builds: a listed pool has the entry
its iteration of the pool loop writes, any other pool has none. -/
def built_images (fuel : Nat) (c : Cluster) : ImageMap :=
  fun k => if k ∈ c.pool_list2.2.map Prod.fst then pool_entry fuel c k else none

/-- The cluster `c` with every pool of id `p` taken out of the pool listing. -/
def without_pool (c : Cluster) (p : Int) : Cluster :=
  { c with pool_list2 := (c.pool_list2.1, c.pool_list2.2.filter (fun kv => decide (kv.1 ≠ p))) }

/-- The `dir_list` call of pool `p` at the cursor `cur` fails: its return code
is negative and is not `-ENOENT`. -/
def listing_error (c : Cluster) (p : Int) (cur : String) : Prop :=
  (c.dir_list p cur max_read).1 < 0 ∧ (c.dir_list p cur max_read).1 ≠ -ENOENT

/-- One of the calls made for pool `p` fails: the base-tier query, the pool
open, the mirroring-mode query, or a `dir_list` call of its listing loop. -/
def pool_fails (fuel : Nat) (c : Cluster) (p : Int) : Prop :=
  (c.pool_get_base_tier p).1 < 0 ∨ c.ioctx_create2 p < 0 ∨ (c.mirror_mode_get p).1 < 0 ∨
  ∃ l, list_images (c.dir_list p) fuel "" ∅ [] = some l ∧ ∃ cur ∈ l.calls, listing_error c p cur

/-! ## Example clusters -/

/-- A directory of two images. -/
def dir_two : StringMap :=
  ⟨[("img_a", "10a"), ("img_b", "10b")], by simp [String.lt_iff_toList_lt]; decide⟩

/-- A cluster of four pools: `rbd` (id 1) is a base tier with mirroring enabled
and the two images of `dir_two`; `cache` (id 2) is a cache tier of pool 1;
`off` (id 3) has mirroring disabled (and the same two images); the directory
listing of `broken` (id 4) fails with `-EIO`. -/
def example_cluster : Cluster :=
  { pool_list2 := (0, [(1, "rbd"), (2, "cache"), (3, "off"), (4, "broken")])
    pool_get_base_tier := fun p => if p = 2 then (0, 1) else (0, p)
    ioctx_create2 := fun _ => 0
    mirror_mode_get := fun p =>
      if p = 3 then (0, rbd_mirror_mode_t.RBD_MIRROR_MODE_DISABLED)
      else (0, rbd_mirror_mode_t.RBD_MIRROR_MODE_POOL)
    dir_list := fun p cursor n =>
      if p = 4 then (-5, StringMap.nil) else (0, page_after dir_two cursor n) }

/-- The cluster `example_cluster` at a moment when its pool listing fails with
`-EIO`. -/
def cluster_list_fails : Cluster :=
  { example_cluster with pool_list2 := (-5, []) }

/-- A watcher with a 30 second interval that holds the result of an earlier
scan: one image in pool 9. -/
def watcher_prev : PoolWatcher Nat :=
  { PoolWatcher.init 30 with m_images := ImageMap.nil.assign 9 {"10c"} }

/-- The name of the `i`-th image of `dir_1024`: the letter `a`, `i + 1` times. -/
def image_name (i : Nat) : String := String.mk (List.replicate (i + 1) 'a')

/-- A directory of exactly 1024 images, named `a`, `aa`, `aaa`, ...; the id of
an image is its name. -/
def dir_1024 : StringMap :=
  ⟨(List.range 1024).map (fun i => (image_name i, image_name i)), by
    have key : ∀ i j : Nat, i < j →
        (List.replicate (i + 1) 'a' : List Char) < List.replicate (j + 1) 'a' := by
      intro i
      induction i with
      | zero =>
        intro j hj
        obtain ⟨m, rfl⟩ : ∃ m, j = m + 1 := ⟨j - 1, by omega⟩
        exact List.Lex.cons (List.Lex.nil)
      | succ i ih =>
        intro j hj
        obtain ⟨m, rfl⟩ : ∃ m, j = m + 1 := ⟨j - 1, by omega⟩
        exact List.Lex.cons (ih m (by omega))
    exact List.pairwise_map.mpr ((List.pairwise_lt_range 1024).imp
      (fun {i j} h => String.lt_iff_toList_lt.mpr (key i j h)))⟩

/-- A cluster of one pool, `rbd` (id 1): a base tier with mirroring enabled
whose directory `dir_1024` is paged faithfully. -/
def cluster_1024 : Cluster :=
  { pool_list2 := (0, [(1, "rbd")])
    pool_get_base_tier := fun p => (0, p)
    ioctx_create2 := fun _ => 0
    mirror_mode_get := fun _ => (0, rbd_mirror_mode_t.RBD_MIRROR_MODE_POOL)
    dir_list := fun _ cursor n => (0, page_after dir_1024 cursor n) }

/-- The listing that pages the directory `dir` with `page_after` and return
code 0. -/
def paged (dir : StringMap) : String → Nat → Int × StringMap :=
  fun cursor n => (0, page_after dir cursor n)

/-- A directory of `n` images, named `a`, `aa`, `aaa`, ...; the id of an image
is its name. -/
def dir_upto (n : Nat) : StringMap :=
  ⟨(List.range n).map (fun i => (image_name i, image_name i)), by
    have key : ∀ i j : Nat, i < j →
        (List.replicate (i + 1) 'a' : List Char) < List.replicate (j + 1) 'a' := by
      intro i
      induction i with
      | zero =>
        intro j hj
        obtain ⟨m, rfl⟩ : ∃ m, j = m + 1 := ⟨j - 1, by omega⟩
        exact List.Lex.cons (List.Lex.nil)
      | succ i ih =>
        intro j hj
        obtain ⟨m, rfl⟩ : ∃ m, j = m + 1 := ⟨j - 1, by omega⟩
        exact List.Lex.cons (ih m (by omega))
    exact List.pairwise_map.mpr ((List.pairwise_lt_range n).imp
      (fun {i j} h => String.lt_iff_toList_lt.mpr (key i j h)))⟩

/-- A directory of two entries, the first of which has the empty name. -/
def dir_empty_name : StringMap :=
  ⟨[("", "id0"), ("a", "id1")], by simp [String.lt_iff_toList_lt]; decide⟩

/-! ## One iteration of the pool loop -/

theorem scan_pool_skipped (fuel : Nat) (c : Cluster) (st : Scan) (kv : Int × String)
    (h : skipped c kv.1) : scan_pool fuel c st kv = some st := by
  unfold skipped at h
  unfold scan_pool
  simp only [ENOENT]
  split_ifs <;> first | rfl | (exfalso; omega) | (exfalso; tauto)

theorem scan_pool_listed (fuel : Nat) (c : Cluster) (st : Scan) (kv : Int × String)
    (h : ¬ skipped c kv.1) :
    scan_pool fuel c st kv =
      match list_images (c.dir_list kv.1) fuel "" ∅ [] with
      | none => none
      | some l =>
        some ⟨if l.r > 0 then st.images.assign kv.1 l.image_ids else st.images,
          st.dir_calls ++ l.calls.map (fun cur => (kv.1, cur))⟩ := by
  unfold skipped at h
  simp only [not_or] at h
  obtain ⟨h1, h2, h3, h4, h5⟩ := h
  unfold scan_pool
  simp only [ENOENT]
  have e1 : ¬ (c.pool_get_base_tier kv.1).1 = -2 := by omega
  have e3 : ¬ c.ioctx_create2 kv.1 = -2 := by omega
  simp only [e1, h1, h2, e3, h3, h4, h5, if_false]
  cases list_images (c.dir_list kv.1) fuel "" ∅ [] with
  | none => rfl
  | some l => by_cases hr : l.r > 0 <;> simp [hr]

theorem pool_entry_skipped (fuel : Nat) (c : Cluster) (k : Int) (h : skipped c k) :
    pool_entry fuel c k = none := by
  unfold pool_entry
  rw [scan_pool_skipped fuel c _ (k, "") h]
  rfl

theorem pool_entry_listed (fuel : Nat) (c : Cluster) (k : Int) (h : ¬ skipped c k) :
    pool_entry fuel c k =
      match list_images (c.dir_list k) fuel "" ∅ [] with
      | none => none
      | some l => if l.r > 0 then some l.image_ids else none := by
  unfold pool_entry
  rw [scan_pool_listed fuel c _ (k, "") h]
  cases list_images (c.dir_list k) fuel "" ∅ [] with
  | none => rfl
  | some l => by_cases hr : l.r > 0 <;> simp [hr, ImageMap.assign, ImageMap.nil]

/-- Whether an iteration of the pool loop finishes does not depend on the
state it starts from. -/
theorem scan_pool_isSome (fuel : Nat) (c : Cluster) (st st0 : Scan) (kv : Int × String) :
    (scan_pool fuel c st kv).isSome = (scan_pool fuel c st0 kv).isSome := by
  by_cases h : skipped c kv.1
  · rw [scan_pool_skipped fuel c st kv h, scan_pool_skipped fuel c st0 kv h]; rfl
  · rw [scan_pool_listed fuel c st kv h, scan_pool_listed fuel c st0 kv h]
    cases list_images (c.dir_list kv.1) fuel "" ∅ [] <;> rfl

/-- The map after one iteration of the pool loop. -/
theorem scan_pool_images (fuel : Nat) (c : Cluster) (st st1 : Scan) (kv : Int × String)
    (h : scan_pool fuel c st kv = some st1) (k : Int) :
    st1.images k =
      if k = kv.1 then (pool_entry fuel c k).orElse (fun _ => st.images k)
      else st.images k := by
  by_cases hs : skipped c kv.1
  · rw [scan_pool_skipped fuel c st kv hs] at h
    cases h
    by_cases hk : k = kv.1
    · subst hk; simp [pool_entry_skipped fuel c _ hs]
    · simp [hk]
  · rw [scan_pool_listed fuel c st kv hs] at h
    by_cases hk : k = kv.1
    · subst hk
      rw [pool_entry_listed fuel c _ hs]
      cases hl : list_images (c.dir_list kv.1) fuel "" ∅ [] with
      | none => rw [hl] at h; cases h
      | some l =>
        rw [hl] at h
        cases h
        by_cases hr : l.r > 0 <;> simp [hr, ImageMap.assign]
    · cases hl : list_images (c.dir_list kv.1) fuel "" ∅ [] with
      | none => rw [hl] at h; cases h
      | some l =>
        rw [hl] at h
        cases h
        by_cases hr : l.r > 0 <;> simp [hr, hk, ImageMap.assign]

/-- The directory listings recorded by one iteration of the pool loop are
those recorded before and listings of the iteration's own pool, which is then
not a skipped one. -/
theorem scan_pool_dir_calls (fuel : Nat) (c : Cluster) (st st1 : Scan) (kv : Int × String)
    (h : scan_pool fuel c st kv = some st1) (x : Int × String) (hx : x ∈ st1.dir_calls) :
    x ∈ st.dir_calls ∨ (x.1 = kv.1 ∧ ¬ skipped c kv.1) := by
  by_cases hs : skipped c kv.1
  · rw [scan_pool_skipped fuel c st kv hs] at h
    cases h
    exact Or.inl hx
  · rw [scan_pool_listed fuel c st kv hs] at h
    cases hl : list_images (c.dir_list kv.1) fuel "" ∅ [] with
    | none => rw [hl] at h; cases h
    | some l =>
      rw [hl] at h
      cases h
      simp only [List.mem_append, List.mem_map] at hx
      rcases hx with hx | ⟨cur, _, rfl⟩
      · exact Or.inl hx
      · exact Or.inr ⟨rfl, hs⟩

/-! ## The pool loop -/

/-- The pool loop finishes exactly when each of its iterations does. -/
theorem scan_pools_isSome (fuel : Nat) (c : Cluster) (pools : List (Int × String)) :
    ∀ st : Scan, (scan_pools fuel c pools st).isSome = true ↔
      ∀ kv ∈ pools, (scan_pool fuel c ⟨ImageMap.nil, []⟩ kv).isSome = true := by
  induction pools with
  | nil => intro st; simp [scan_pools]
  | cons kv pools ih =>
    intro st
    simp only [scan_pools, List.mem_cons, forall_eq_or_imp]
    rw [← scan_pool_isSome fuel c st ⟨ImageMap.nil, []⟩ kv]
    cases hkv : scan_pool fuel c st kv with
    | none => simp
    | some st1 => simp [ih st1]

/-- The map after the pool loop: a listed pool has the entry its iteration
writes (or keeps what was there if it writes none), any other is untouched. -/
theorem scan_pools_images (fuel : Nat) (c : Cluster) (pools : List (Int × String)) (k : Int) :
    ∀ st st1 : Scan, scan_pools fuel c pools st = some st1 →
      st1.images k =
        if k ∈ pools.map Prod.fst then (pool_entry fuel c k).orElse (fun _ => st.images k)
        else st.images k := by
  induction pools with
  | nil => intro st st1 h; simp only [scan_pools] at h; cases h; simp
  | cons kv pools ih =>
    intro st st1 h
    simp only [scan_pools] at h
    cases hkv : scan_pool fuel c st kv with
    | none => rw [hkv] at h; cases h
    | some st2 =>
      rw [hkv] at h
      rw [ih st2 st1 h, scan_pool_images fuel c st st2 kv hkv k]
      by_cases hk : k = kv.1
      · have hin : k ∈ (kv :: pools).map Prod.fst := by
          rw [List.map_cons, hk]; exact List.mem_cons_self _ _
        rw [if_pos hin, if_pos hk]
        by_cases hm : k ∈ pools.map Prod.fst
        · rw [if_pos hm]
          cases pool_entry fuel c k <;> rfl
        · rw [if_neg hm]
      · rw [if_neg hk]
        by_cases hm : k ∈ pools.map Prod.fst
        · have hin : k ∈ (kv :: pools).map Prod.fst := by
            rw [List.map_cons]; exact List.mem_cons_of_mem _ hm
          rw [if_pos hm, if_pos hin]
        · have hin : ¬ k ∈ (kv :: pools).map Prod.fst := by
            simp only [List.map_cons, List.mem_cons, not_or]; exact ⟨hk, hm⟩
          rw [if_neg hm, if_neg hin]

/-- The directory listings recorded by the pool loop. -/
theorem scan_pools_dir_calls (fuel : Nat) (c : Cluster) (pools : List (Int × String))
    (x : Int × String) :
    ∀ st st1 : Scan, scan_pools fuel c pools st = some st1 → x ∈ st1.dir_calls →
      x ∈ st.dir_calls ∨ ((∃ kv ∈ pools, kv.1 = x.1) ∧ ¬ skipped c x.1) := by
  induction pools with
  | nil => intro st st1 h hx; simp only [scan_pools] at h; cases h; exact Or.inl hx
  | cons kv pools ih =>
    intro st st1 h hx
    simp only [scan_pools] at h
    cases hkv : scan_pool fuel c st kv with
    | none => rw [hkv] at h; cases h
    | some st2 =>
      rw [hkv] at h
      rcases ih st2 st1 h hx with h2 | ⟨⟨kv2, hm, he⟩, hs⟩
      · rcases scan_pool_dir_calls fuel c st st2 kv hkv x h2 with h3 | ⟨he, hs⟩
        · exact Or.inl h3
        · exact Or.inr ⟨⟨kv, List.mem_cons_self _ _, he.symm⟩, he ▸ hs⟩
      · exact Or.inr ⟨⟨kv2, List.mem_cons_of_mem _ hm, he⟩, hs⟩

/-! ## The listing loop over a faithfully paged directory -/

theorem empty_lt_of_ne (s : String) (h : s ≠ "") : "" < s := by
  rw [String.lt_iff_toList_lt]
  cases hs : s.toList with
  | nil =>
    exfalso; apply h
    have : s.data = [] := hs
    cases s; simp_all
  | cons a l => exact List.nil_lt_cons a l

theorem int_of_size_small (n : Nat) (h : n < 2 ^ 31) : int_of_size n = (n : Int) := by
  unfold int_of_size; omega

theorem insert_ids_eq (m : StringMap) (ids : Finset String) :
    insert_ids m ids = ids ∪ (m.entries.map Prod.snd).toFinset := by
  unfold insert_ids
  generalize m.entries = l
  induction l generalizing ids with
  | nil => simp
  | cons e l ih =>
    rw [List.foldl_cons, ih]
    ext x
    simp only [List.map_cons, List.toFinset_cons, Finset.mem_union, Finset.mem_insert]
    tauto

/-- In a list sorted by key, the entries after the key of `e` are those that
follow `e`. -/
theorem filter_after_last (l1 l2 : List (String × String)) (e : String × String)
    (h : (l1 ++ [e] ++ l2).Pairwise (fun a b => a.1 < b.1)) :
    (l1 ++ [e] ++ l2).filter (fun x => decide (e.1 < x.1)) = l2 := by
  rw [List.pairwise_append] at h
  obtain ⟨h1, _, h3⟩ := h
  rw [List.pairwise_append] at h1
  obtain ⟨_, _, h4⟩ := h1
  rw [List.filter_append, List.filter_append]
  have a1 : l1.filter (fun x => decide (e.1 < x.1)) = [] := by
    rw [List.filter_eq_nil_iff]
    intro a ha
    have := h4 a ha e (List.mem_singleton_self e)
    simpa using le_of_lt this
  have a2 : [e].filter (fun x => decide (e.1 < x.1)) = [] := by
    rw [List.filter_eq_nil_iff]
    intro a ha
    rw [List.mem_singleton] at ha
    subst ha
    simp
  have a3 : l2.filter (fun x => decide (e.1 < x.1)) = l2 := by
    rw [List.filter_eq_self]
    intro a ha
    have := h3 e (by simp) a ha
    simpa using this
  rw [a1, a2, a3]; rfl

/-- Moving the cursor to the last key of a non-empty page leaves exactly the
entries that follow the page. -/
theorem filter_advance (L : List (String × String))
    (hL : L.Pairwise (fun a b => a.1 < b.1)) (cur : String) (n : Nat) (e : String × String)
    (he : ((L.filter (fun x => decide (cur < x.1))).take n).getLast? = some e) :
    L.filter (fun x => decide (e.1 < x.1)) =
      (L.filter (fun x => decide (cur < x.1))).drop n := by
  set rest := L.filter (fun x => decide (cur < x.1)) with hrest
  have hsorted : rest.Pairwise (fun a b => a.1 < b.1) := hL.sublist (List.filter_sublist _)
  obtain ⟨ys, hys⟩ := List.getLast?_eq_some_iff.mp he
  have hmem : e ∈ rest := by
    have : e ∈ rest.take n := by rw [hys]; simp
    exact List.mem_of_mem_take this
  have hcur : cur < e.1 := by
    have := (List.mem_filter.mp hmem).2
    simpa using this
  have h1 : L.filter (fun x => decide (e.1 < x.1)) =
      rest.filter (fun x => decide (e.1 < x.1)) := by
    rw [hrest, List.filter_filter]
    apply List.filter_congr
    intro x _
    by_cases hx : e.1 < x.1
    · simp [hx, lt_trans hcur hx]
    · simp [hx]
  rw [h1]
  have hsplit : rest = ys ++ [e] ++ rest.drop n := by
    rw [← hys, List.take_append_drop]
  have hs2 : (ys ++ [e] ++ rest.drop n).Pairwise (fun a b => a.1 < b.1) := by
    rw [← hsplit]; exact hsorted
  have := filter_after_last ys (rest.drop n) e hs2
  rw [← hsplit] at this
  exact this

/-- The listing loop over a faithfully paged directory: entered with the
cursor `last_read`, it ends within one call more than the number of full pages
that remain after the cursor, with `r` the size of the last page and
`image_ids` enlarged by the ids of all the entries after the cursor. -/
theorem list_images_paged (dl : String → Nat → Int × StringMap) (dir : StringMap)
    (hf : faithful_paging dl dir) :
    ∀ (fuel : Nat) (last_read : String) (ids : Finset String) (calls : List String),
      (dir.entries.filter (fun x => decide (last_read < x.1))).length / max_read < fuel →
      ∃ l, list_images dl fuel last_read ids calls = some l ∧
        l.r = (((dir.entries.filter (fun x => decide (last_read < x.1))).length % max_read
          : Nat) : Int) ∧
        l.image_ids = ids ∪
          ((dir.entries.filter (fun x => decide (last_read < x.1))).map Prod.snd).toFinset ∧
        l.calls.length = calls.length +
          (dir.entries.filter (fun x => decide (last_read < x.1))).length / max_read + 1 := by
  intro fuel
  induction fuel with
  | zero => intro _ _ _ h; exact absurd h (Nat.not_lt_zero _)
  | succ fuel ih =>
    intro last_read ids calls hfuel
    obtain ⟨hok, hpage⟩ := hf last_read max_read
    simp only [page_after] at hpage
    set rest := dir.entries.filter (fun x => decide (last_read < x.1)) with hrest
    have hr0 : ¬ (if (dl last_read max_read).1 = -ENOENT then (0 : Int)
        else (dl last_read max_read).1) < 0 := by
      split_ifs with h0
      · omega
      · rcases hok with h1 | h1
        · omega
        · exact absurd h1 h0
    unfold list_images
    simp only [hr0, if_false, StringMap.size, StringMap.empty, hpage]
    by_cases hlen : rest.length < max_read
    · -- the last page
      have htake : rest.take max_read = rest := List.take_of_length_le (le_of_lt hlen)
      have hsz : int_of_size rest.length = (rest.length : Int) :=
        int_of_size_small _ (by unfold max_read at hlen; omega)
      have hne : ¬ int_of_size rest.length = (max_read : Int) := by
        rw [hsz]; unfold max_read at hlen ⊢; omega
      rw [htake]
      simp only [hne, if_false]
      refine ⟨_, rfl, ?_, ?_, ?_⟩
      · simp only [hsz, Nat.mod_eq_of_lt hlen]
      · simp only [insert_ids_eq, hpage, htake]
      · have : rest.length / max_read = 0 := Nat.div_eq_of_lt hlen
        simp [this]
    · -- a full page
      have hlen2 : max_read ≤ rest.length := Nat.le_of_not_lt hlen
      have htl : (rest.take max_read).length = max_read := by
        rw [List.length_take]; exact Nat.min_eq_left hlen2
      have heq : int_of_size (rest.take max_read).length = (max_read : Int) := by
        rw [htl]; exact int_of_size_small _ (by unfold max_read; norm_num)
      have hnonempty : (rest.take max_read) ≠ [] := by
        intro h0; rw [h0] at htl; unfold max_read at htl; simp at htl
      obtain ⟨e, he⟩ : ∃ e, (rest.take max_read).getLast? = some e := by
        cases hg : (rest.take max_read).getLast? with
        | none => exact absurd (List.getLast?_eq_none_iff.mp hg) hnonempty
        | some e => exact ⟨e, rfl⟩
      have hcur : (if (!(rest.take max_read).isEmpty) = true
          then (dl last_read max_read).2.rbegin_first else last_read) = e.1 := by
        have h1 : (rest.take max_read).isEmpty = false := by
          cases hh : rest.take max_read with
          | nil => exact absurd hh hnonempty
          | cons _ _ => rfl
        simp only [h1, Bool.not_false, if_true, StringMap.rbegin_first, hpage, he]
      have hadv := filter_advance dir.entries dir.sorted last_read max_read e he
      rw [← hrest] at hadv
      simp only [heq, if_true, hcur]
      have hdl : (rest.drop max_read).length = rest.length - max_read := List.length_drop _ _
      have hfuel2 : (dir.entries.filter (fun x => decide (e.1 < x.1))).length / max_read
          < fuel := by
        rw [hadv, hdl]
        have : (rest.length - max_read) / max_read + 1 = rest.length / max_read := by
          unfold max_read at hlen2 ⊢; omega
        omega
      obtain ⟨l, hl, hlr, hli, hlc⟩ :=
        ih e.1 (insert_ids (dl last_read max_read).2 ids) (calls ++ [last_read]) hfuel2
      refine ⟨l, hl, ?_, ?_, ?_⟩
      · rw [hlr, hadv, hdl]
        have : (rest.length - max_read) % max_read = rest.length % max_read := by
          unfold max_read at hlen2 ⊢; omega
        rw [this]
      · rw [hli, hadv, insert_ids_eq, hpage, Finset.union_assoc, ← List.toFinset_append,
          ← List.map_append, List.take_append_drop]
      · rw [hlc, hadv, hdl]
        have : (rest.length - max_read) / max_read + 1 = rest.length / max_read := by
          unfold max_read at hlen2 ⊢; omega
        simp only [List.length_append, List.length_singleton]
        omega

/-! ## The whole call -/

/-- A failing pool listing: the call returns at once, with nothing changed. -/
theorem refresh_images_list_error {τ : Type} (fuel : Nat) (c : Cluster) (reschedule : Bool)
    (w : PoolWatcher τ) (h : c.pool_list2.1 < 0) :
    refresh_images fuel c reschedule w = some (w, []) := by
  unfold refresh_images
  simp only [h, if_true]

/-- A successful pool listing whose directory listings end: the call returns,
having installed the map built from the cluster. -/
theorem refresh_images_listed {τ : Type} (fuel : Nat) (c : Cluster) (reschedule : Bool)
    (w : PoolWatcher τ) (h : 0 ≤ c.pool_list2.1) (hend : listings_end fuel c) :
    ∃ calls, refresh_images fuel c reschedule w =
        some (install (built_images fuel c) reschedule w, calls) ∧
      ∀ x ∈ calls, (∃ kv ∈ c.pool_list2.2, kv.1 = x.1) ∧ ¬ skipped c x.1 := by
  have hsome := (scan_pools_isSome fuel c c.pool_list2.2 ⟨ImageMap.nil, []⟩).mpr hend
  obtain ⟨st, hst⟩ := Option.isSome_iff_exists.mp hsome
  have himg : st.images = built_images fuel c := by
    funext k
    rw [scan_pools_images fuel c c.pool_list2.2 k _ st hst]
    unfold built_images
    by_cases hm : k ∈ c.pool_list2.2.map Prod.fst
    · rw [if_pos hm, if_pos hm]
      cases pool_entry fuel c k <;> rfl
    · rw [if_neg hm, if_neg hm]; rfl
  refine ⟨st.dir_calls, ?_, ?_⟩
  · unfold refresh_images
    have : ¬ c.pool_list2.1 < 0 := by omega
    simp only [this, if_false, hst, himg]
  · intro x hx
    rcases scan_pools_dir_calls fuel c c.pool_list2.2 x _ st hst hx with h0 | h1
    · simp at h0
    · exact h1

/-- The call returns exactly when the pool listing fails or every directory
listing of the scan ends. -/
theorem refresh_images_isSome {τ : Type} (fuel : Nat) (c : Cluster) (reschedule : Bool)
    (w : PoolWatcher τ) :
    (refresh_images fuel c reschedule w).isSome = true ↔
      (c.pool_list2.1 < 0 ∨ listings_end fuel c) := by
  by_cases h : c.pool_list2.1 < 0
  · simp [refresh_images_list_error fuel c reschedule w h, h]
  · have hiff := scan_pools_isSome fuel c c.pool_list2.2 ⟨ImageMap.nil, []⟩
    unfold refresh_images
    simp only [h, if_false, false_or]
    cases hs : scan_pools fuel c c.pool_list2.2 ⟨ImageMap.nil, []⟩ with
    | none =>
      rw [hs] at hiff
      simp only [Option.isSome_none, Bool.false_eq_true, false_iff] at hiff ⊢
      exact hiff
    | some st =>
      rw [hs] at hiff
      simp only [Option.isSome_some, true_iff] at hiff ⊢
      exact hiff

theorem install_m_images {τ : Type} (images : ImageMap) (reschedule : Bool)
    (w : PoolWatcher τ) : (install images reschedule w).m_images = images := by
  simp only [install]
  split_ifs <;> rfl

theorem install_signals {τ : Type} (images : ImageMap) (reschedule : Bool)
    (w : PoolWatcher τ) : (install images reschedule w).signals = w.signals + 1 := by
  simp only [install]
  split_ifs <;> rfl

theorem install_m_timer {τ : Type} (images : ImageMap) (reschedule : Bool)
    (w : PoolWatcher τ) :
    (install images reschedule w).m_timer =
      if !w.m_stopping && reschedule then w.m_timer ++ [⟨w.m_interval, true⟩]
      else w.m_timer := by
  simp only [install]
  split_ifs <;> rfl

/-- A call that gets past the pool listing signals once, and re-arms the
timer once if it was asked to and the watcher is not stopping. -/
theorem refresh_images_signals_once {τ : Type} (fuel : Nat) (c : Cluster) (reschedule : Bool)
    (w : PoolWatcher τ) (h : 0 ≤ c.pool_list2.1) (hend : listings_end fuel c) :
    ∃ res, refresh_images fuel c reschedule w = some res ∧
      res.1.signals = w.signals + 1 ∧
      res.1.m_timer = if !w.m_stopping && reschedule
        then w.m_timer ++ [⟨w.m_interval, true⟩] else w.m_timer := by
  obtain ⟨calls, hres, _⟩ := refresh_images_listed fuel c reschedule w h hend
  exact ⟨_, hres, install_signals _ _ _, install_m_timer _ _ _⟩

/-! ## Failing calls -/

/-- The listing loop ends with a negative `r` at the first `dir_list` call
that fails. -/
theorem list_images_error (dl : String → Nat → Int × StringMap) :
    ∀ (fuel : Nat) (last_read : String) (ids : Finset String) (calls : List String)
      (l : Listing), list_images dl fuel last_read ids calls = some l →
      ∃ new, l.calls = calls ++ new ∧
        ∀ cur ∈ new, ((dl cur max_read).1 < 0 ∧ (dl cur max_read).1 ≠ -ENOENT) → l.r < 0 := by
  intro fuel
  induction fuel with
  | zero => intro _ _ _ l h; simp [list_images] at h
  | succ fuel ih =>
    intro last_read ids calls l h
    unfold list_images at h
    simp only at h
    by_cases hr : (if (dl last_read max_read).1 = -ENOENT then (0 : Int)
        else (dl last_read max_read).1) < 0
    · have hne : ¬ (if (dl last_read max_read).1 = -ENOENT then (0 : Int)
          else (dl last_read max_read).1) = (max_read : Int) := by
        intro h0; rw [h0] at hr; unfold max_read at hr; omega
      simp only [hr, if_true, hne, if_false, Option.some.injEq] at h
      subst h
      exact ⟨[last_read], rfl, fun _ _ _ => hr⟩
    · have hnoerr : ¬ ((dl last_read max_read).1 < 0 ∧ (dl last_read max_read).1 ≠ -ENOENT) := by
        rintro ⟨h1, h2⟩
        apply hr
        rw [if_neg h2]; exact h1
      simp only [hr, if_false] at h
      by_cases hc : int_of_size (dl last_read max_read).2.size = (max_read : Int)
      · simp only [hc, if_true] at h
        obtain ⟨new, hnew, herr⟩ := ih _ _ _ l h
        refine ⟨last_read :: new, ?_, ?_⟩
        · rw [hnew, List.append_assoc]; rfl
        · intro cur hcur he
          rcases List.mem_cons.mp hcur with h1 | h1
          · subst h1; exact absurd he hnoerr
          · exact herr cur h1 he
      · simp only [hc, if_false, Option.some.injEq] at h
        subst h
        refine ⟨[last_read], rfl, ?_⟩
        intro cur hcur he
        rw [List.mem_singleton] at hcur
        subst hcur
        exact absurd he hnoerr

/-- A pool one of whose calls fails gets no entry. -/
theorem pool_entry_of_fails (fuel : Nat) (c : Cluster) (p : Int) (h : pool_fails fuel c p) :
    pool_entry fuel c p = none := by
  by_cases hs : skipped c p
  · exact pool_entry_skipped fuel c p hs
  · rw [pool_entry_listed fuel c p hs]
    rcases h with h | h | h | ⟨l, hl, cur, hcur, herr⟩
    · exact absurd (Or.inl h) hs
    · exact absurd (Or.inr (Or.inr (Or.inl h))) hs
    · exact absurd (Or.inr (Or.inr (Or.inr (Or.inl h)))) hs
    · rw [hl]
      obtain ⟨new, hnew, hall⟩ := list_images_error (c.dir_list p) fuel "" ∅ [] l hl
      rw [List.nil_append] at hnew
      have hneg : l.r < 0 := hall cur (hnew ▸ hcur) herr
      have : ¬ l.r > 0 := by omega
      simp only [this, if_false]

theorem built_images_without_pool (fuel : Nat) (c : Cluster) (p : Int)
    (h : pool_entry fuel c p = none) :
    built_images fuel (without_pool c p) = built_images fuel c := by
  funext k
  unfold built_images
  have hpe : pool_entry fuel (without_pool c p) k = pool_entry fuel c k := rfl
  rw [hpe]
  by_cases hk : k = p
  · subst hk
    rw [h]
    simp
  · have hiff : k ∈ (without_pool c p).pool_list2.2.map Prod.fst ↔
        k ∈ c.pool_list2.2.map Prod.fst := by
      simp only [without_pool, List.mem_map, List.mem_filter, decide_eq_true_eq]
      constructor
      · rintro ⟨kv, ⟨hm, _⟩, he⟩; exact ⟨kv, hm, he⟩
      · rintro ⟨kv, hm, he⟩; exact ⟨kv, ⟨hm, by rw [he]; exact hk⟩, he⟩
    by_cases hm : k ∈ c.pool_list2.2.map Prod.fst
    · rw [if_pos hm, if_pos (hiff.mpr hm)]
    · rw [if_neg hm, if_neg (fun h0 => hm (hiff.mp h0))]

theorem listings_end_without_pool (fuel : Nat) (c : Cluster) (p : Int)
    (h : listings_end fuel c) : listings_end fuel (without_pool c p) := by
  intro kv hkv
  have hm : kv ∈ c.pool_list2.2 := (List.mem_filter.mp hkv).1
  exact h kv hm

/-- The pool loop's iterations all finish if each listed pool is skipped or
has a listing loop that ends. -/
theorem listings_end_of (fuel : Nat) (c : Cluster)
    (h : ∀ kv ∈ c.pool_list2.2, skipped c kv.1 ∨
      ∃ l, list_images (c.dir_list kv.1) fuel "" ∅ [] = some l) :
    listings_end fuel c := by
  intro kv hkv
  by_cases hs : skipped c kv.1
  · rw [scan_pool_skipped fuel c _ kv hs]; rfl
  · rcases h kv hkv with h1 | ⟨l, hl⟩
    · exact absurd h1 hs
    · rw [scan_pool_listed fuel c _ kv hs, hl]; rfl

/-! ## The example cluster -/

/-- The listing loop of a faithfully paged directory ends, from any cursor. -/
theorem list_images_paged_ends (dl : String → Nat → Int × StringMap) (dir : StringMap)
    (hf : faithful_paging dl dir) (fuel : Nat) (hfuel : dir.size / max_read < fuel)
    (last_read : String) (ids : Finset String) (calls : List String) :
    ∃ l, list_images dl fuel last_read ids calls = some l := by
  have hle : (dir.entries.filter (fun x => decide (last_read < x.1))).length / max_read
      < fuel :=
    lt_of_le_of_lt (Nat.div_le_div_right (List.length_filter_le _ _)) hfuel
  obtain ⟨l, hl, _⟩ := list_images_paged dl dir hf fuel last_read ids calls hle
  exact ⟨l, hl⟩

theorem example_cluster_broken :
    list_images (example_cluster.dir_list 4) 1 "" ∅ [] = some ⟨-5, ∅, [""]⟩ := by
  simp [list_images, example_cluster, ENOENT, max_read]

theorem example_cluster_listings_end : listings_end 1 example_cluster := by
  apply listings_end_of
  intro kv hkv
  simp only [example_cluster, List.mem_cons, List.mem_singleton, List.not_mem_nil,
    or_false] at hkv
  rcases hkv with rfl | rfl | rfl | rfl
  · right
    exact list_images_paged_ends _ dir_two (fun _ _ => ⟨Or.inl (le_refl _), rfl⟩) 1
      (by simp [StringMap.size, dir_two, max_read]) _ _ _
  · left; simp [skipped, example_cluster]
  · left; simp [skipped, example_cluster]
  · right; exact ⟨_, example_cluster_broken⟩

/-! ## The claims about the whole call -/

/-- C2 (the code departs from it): a call whose pool listing fails returns
through the early `return` and signals the refresh condition variable not
once but never: on the cluster `cluster_list_fails` a fresh watcher, whose
signal count is 0, still has the count 0 after the call, for either value of
`reschedule`. -/
theorem C2_no_signal_when_pool_list_fails :
    ∀ (fuel : Nat) (reschedule : Bool),
      ∃ res, refresh_images fuel cluster_list_fails reschedule (PoolWatcher.init (30 : Nat))
          = some res ∧
        (PoolWatcher.init (30 : Nat)).signals = 0 ∧ res.1.signals = 0 := by
  intro fuel reschedule
  exact ⟨_, refresh_images_list_error fuel cluster_list_fails reschedule _ (by decide),
    rfl, rfl⟩

/-- C3 (the code departs from it): a call `refresh_images(true)` on a watcher
that is not stopping adds no timer event when the pool listing fails: on the
cluster `cluster_list_fails` the timer of a fresh watcher is still empty after
the call, so the periodic scan is not re-armed. -/
theorem C3_no_timer_event_when_pool_list_fails :
    ∀ fuel : Nat,
      ∃ res, refresh_images fuel cluster_list_fails true (PoolWatcher.init (30 : Nat))
          = some res ∧
        (PoolWatcher.init (30 : Nat)).m_stopping = false ∧
        (PoolWatcher.init (30 : Nat)).m_timer = [] ∧ res.1.m_timer = [] := by
  intro fuel
  exact ⟨_, refresh_images_list_error fuel cluster_list_fails true _ (by decide),
    rfl, rfl, rfl⟩

/-- C4: replace-not-merge.  After a call whose pool listing succeeds (and
whose directory listings end), the image map is the map built from the
cluster's answers of this cycle: pool `k` has the entry `ids` exactly when `k`
is listed, is not skipped, and its listing loop ends with a positive `r` and
the set `ids`.  The map is the same whatever the watcher held before the call,
and a pool id that is not in the pool listing has no entry. -/
theorem C4_replace_not_merge {τ : Type} (fuel : Nat) (c : Cluster) (reschedule : Bool)
    (w : PoolWatcher τ) (hlist : 0 ≤ c.pool_list2.1) (hend : listings_end fuel c) :
    ∃ res, refresh_images fuel c reschedule w = some res ∧
      (∀ k ids, res.1.m_images k = some ids ↔
        ((∃ kv ∈ c.pool_list2.2, kv.1 = k) ∧ ¬ skipped c k ∧
          ∃ l, list_images (c.dir_list k) fuel "" ∅ [] = some l ∧ 0 < l.r ∧
            l.image_ids = ids)) ∧
      (∀ (reschedule0 : Bool) (w0 : PoolWatcher τ),
        ∃ res0, refresh_images fuel c reschedule0 w0 = some res0 ∧
          res0.1.m_images = res.1.m_images) ∧
      (∀ k, (∀ kv ∈ c.pool_list2.2, kv.1 ≠ k) → res.1.m_images k = none) := by
  obtain ⟨calls, hres, _⟩ := refresh_images_listed fuel c reschedule w hlist hend
  refine ⟨_, hres, ?_, ?_, ?_⟩
  · intro k ids
    simp only [install_m_images, built_images]
    by_cases hm : k ∈ c.pool_list2.2.map Prod.fst
    · have hex : ∃ kv ∈ c.pool_list2.2, kv.1 = k := by
        obtain ⟨kv, h1, h2⟩ := List.mem_map.mp hm
        exact ⟨kv, h1, h2⟩
      rw [if_pos hm]
      by_cases hs : skipped c k
      · rw [pool_entry_skipped fuel c k hs]
        constructor
        · intro h; cases h
        · rintro ⟨_, h2, _⟩; exact absurd hs h2
      · rw [pool_entry_listed fuel c k hs]
        cases hl : list_images (c.dir_list k) fuel "" ∅ [] with
        | none =>
          constructor
          · intro h; cases h
          · rintro ⟨_, _, l, h3, _⟩; cases h3
        | some l =>
          by_cases hr : l.r > 0
          · simp only [hr, if_true, Option.some.injEq]
            constructor
            · intro h; exact ⟨hex, hs, l, rfl, hr, h⟩
            · rintro ⟨_, _, l2, h3, _, h5⟩
              cases h3; exact h5
          · simp only [hr, if_false]
            constructor
            · intro h; cases h
            · rintro ⟨_, _, l2, h3, h4, _⟩
              cases h3; exact absurd h4 hr
    · rw [if_neg hm]
      constructor
      · intro h; cases h
      · rintro ⟨⟨kv, h1, h2⟩, _⟩
        exact absurd (List.mem_map.mpr ⟨kv, h1, h2⟩) hm
  · intro reschedule0 w0
    obtain ⟨calls0, hres0, _⟩ := refresh_images_listed fuel c reschedule0 w0 hlist hend
    exact ⟨_, hres0, by simp only [install_m_images]⟩
  · intro k hk
    simp only [install_m_images, built_images]
    have hm : ¬ k ∈ c.pool_list2.2.map Prod.fst := by
      intro h0
      obtain ⟨kv, h1, h2⟩ := List.mem_map.mp h0
      exact hk kv h1 h2
    rw [if_neg hm]

/-- C4 on `example_cluster`: pool 9, present in the map before the call and
absent from the pool listing, has no entry afterwards. -/
theorem C4_replace_not_merge_witness :
    0 ≤ example_cluster.pool_list2.1 ∧ listings_end 1 example_cluster ∧
    watcher_prev.m_images 9 = some {"10c"} ∧
    ∃ res, refresh_images 1 example_cluster true watcher_prev = some res ∧
      res.1.m_images 9 = none := by
  obtain ⟨res, hres, _, _, habsent⟩ := C4_replace_not_merge 1 example_cluster true
    watcher_prev (by decide) example_cluster_listings_end
  exact ⟨by decide, example_cluster_listings_end, rfl, res, hres,
    habsent 9 (by simp [example_cluster])⟩

/-- C5: skip cache tier.  After a call whose pool listing succeeds, a pool
whose base-tier query reports an id other than its own (in particular a listed
one) has no entry in the image map, whatever its mirroring mode and its
directory hold. -/
theorem C5_cache_tier_has_no_entry {τ : Type} (fuel : Nat) (c : Cluster) (reschedule : Bool)
    (w : PoolWatcher τ) (hlist : 0 ≤ c.pool_list2.1) (hend : listings_end fuel c)
    (k : Int) (hcache : (c.pool_get_base_tier k).2 ≠ k) :
    ∃ res, refresh_images fuel c reschedule w = some res ∧ res.1.m_images k = none := by
  obtain ⟨calls, hres, _⟩ := refresh_images_listed fuel c reschedule w hlist hend
  refine ⟨_, hres, ?_⟩
  have hs : skipped c k := Or.inr (Or.inl (fun h => hcache h.symm))
  simp only [install_m_images, built_images, pool_entry_skipped fuel c k hs, ite_self]

/-- C5 on `example_cluster`: pool 2, a cache tier of pool 1, has no entry. -/
theorem C5_cache_tier_has_no_entry_witness :
    0 ≤ example_cluster.pool_list2.1 ∧ listings_end 1 example_cluster ∧
    (example_cluster.pool_get_base_tier 2).2 ≠ 2 ∧
    ∃ res, refresh_images 1 example_cluster true watcher_prev = some res ∧
      res.1.m_images 2 = none :=
  ⟨by decide, example_cluster_listings_end, by decide,
    C5_cache_tier_has_no_entry 1 example_cluster true watcher_prev (by decide)
      example_cluster_listings_end 2 (by decide)⟩

/-- C6: skip disabled.  After a call whose pool listing succeeds, a pool whose
mirroring-mode query reports `RBD_MIRROR_MODE_DISABLED` has no entry in the
image map, whatever its directory holds, and no `dir_list` call was made for
it. -/
theorem C6_disabled_pool_has_no_entry {τ : Type} (fuel : Nat) (c : Cluster)
    (reschedule : Bool) (w : PoolWatcher τ) (hlist : 0 ≤ c.pool_list2.1)
    (hend : listings_end fuel c) (k : Int)
    (hdis : (c.mirror_mode_get k).2 = rbd_mirror_mode_t.RBD_MIRROR_MODE_DISABLED) :
    ∃ res, refresh_images fuel c reschedule w = some res ∧ res.1.m_images k = none ∧
      ∀ cur, (k, cur) ∉ res.2 := by
  obtain ⟨calls, hres, hcalls⟩ := refresh_images_listed fuel c reschedule w hlist hend
  have hs : skipped c k := Or.inr (Or.inr (Or.inr (Or.inr hdis)))
  refine ⟨_, hres, ?_, ?_⟩
  · simp only [install_m_images, built_images, pool_entry_skipped fuel c k hs, ite_self]
  · intro cur hmem
    exact (hcalls (k, cur) hmem).2 hs

/-- C6 on `example_cluster`: pool 3, with mirroring disabled and two images
in its directory, has no entry and is not listed. -/
theorem C6_disabled_pool_has_no_entry_witness :
    0 ≤ example_cluster.pool_list2.1 ∧ listings_end 1 example_cluster ∧
    (example_cluster.mirror_mode_get 3).2 = rbd_mirror_mode_t.RBD_MIRROR_MODE_DISABLED ∧
    ∃ res, refresh_images 1 example_cluster true watcher_prev = some res ∧
      res.1.m_images 3 = none ∧ ∀ cur, (3, cur) ∉ res.2 :=
  ⟨by decide, example_cluster_listings_end, by decide,
    C6_disabled_pool_has_no_entry 1 example_cluster true watcher_prev (by decide)
      example_cluster_listings_end 3 (by decide)⟩

/-- C7: a scan never re-arms after shutdown.  A call that finds `m_stopping`
set leaves the timer as it was, for either value of `reschedule` and every
cluster (a call that never leaves a listing loop adds no event either: the
only `add_event_after` comes after the loops); the call returns whenever the
pool listing fails or the directory listings end.  After the destructor, which
sets `m_stopping` and cancels the pending events, the timer stays empty. -/
theorem C7_no_timer_event_when_stopping {τ : Type} (fuel : Nat) (c : Cluster)
    (reschedule : Bool) (w : PoolWatcher τ) (hstop : w.m_stopping = true) :
    (∀ res, refresh_images fuel c reschedule w = some res → res.1.m_timer = w.m_timer) ∧
    ((c.pool_list2.1 < 0 ∨ listings_end fuel c) →
      ∃ res, refresh_images fuel c reschedule w = some res) ∧
    (∀ (w0 : PoolWatcher τ) (res : PoolWatcher τ × List (Int × String)),
      refresh_images fuel c reschedule (destroy w0) = some res → res.1.m_timer = []) := by
  have key : ∀ (w1 : PoolWatcher τ), w1.m_stopping = true →
      ∀ res, refresh_images fuel c reschedule w1 = some res → res.1.m_timer = w1.m_timer := by
    intro w1 h1 res hres
    by_cases hl : c.pool_list2.1 < 0
    · rw [refresh_images_list_error fuel c reschedule w1 hl] at hres
      cases hres; rfl
    · have hend : listings_end fuel c := by
        have := (refresh_images_isSome fuel c reschedule w1).mp (by rw [hres]; rfl)
        exact this.resolve_left hl
      obtain ⟨calls, hres2, _⟩ :=
        refresh_images_listed fuel c reschedule w1 (by omega) hend
      rw [hres2] at hres
      cases hres
      simp only [install_m_timer, h1, Bool.not_true, Bool.false_and, Bool.false_eq_true,
        if_false]
  refine ⟨key w hstop, ?_, ?_⟩
  · intro h
    exact Option.isSome_iff_exists.mp ((refresh_images_isSome fuel c reschedule w).mpr h)
  · intro w0 res hres
    exact key (destroy w0) rfl res hres

/-- C7 on `example_cluster`: a watcher that was destroyed is asked to
reschedule, returns, and has an empty timer. -/
theorem C7_no_timer_event_when_stopping_witness :
    (destroy watcher_prev).m_stopping = true ∧
    ∃ res, refresh_images 1 example_cluster true (destroy watcher_prev) = some res ∧
      res.1.m_timer = [] := by
  obtain ⟨hsafe, hret, _⟩ := C7_no_timer_event_when_stopping 1 example_cluster true
    (destroy watcher_prev) rfl
  obtain ⟨res, hres⟩ := hret (Or.inr example_cluster_listings_end)
  exact ⟨rfl, res, hres, hsafe res hres⟩

/-- C8: per-pool error isolation.  After a call whose pool listing succeeds,
a pool `p` one of whose calls fails (base-tier query, pool open, mirroring-mode
query, or a `dir_list` call of its listing loop) has no entry in the image map,
and the watcher is left exactly as by the same call on the cluster whose pool
listing does not contain `p`: every other pool has the entry it would have had
without `p`.  (Pool ids need not even be distinct.) -/
theorem C8_pool_error_isolated {τ : Type} (fuel : Nat) (c : Cluster) (reschedule : Bool)
    (w : PoolWatcher τ) (hlist : 0 ≤ c.pool_list2.1) (hend : listings_end fuel c)
    (p : Int) (hfail : pool_fails fuel c p) :
    ∃ res, refresh_images fuel c reschedule w = some res ∧ res.1.m_images p = none ∧
      ∃ res0, refresh_images fuel (without_pool c p) reschedule w = some res0 ∧
        (∀ q, q ≠ p → res.1.m_images q = res0.1.m_images q) ∧ res.1 = res0.1 := by
  obtain ⟨calls, hres, _⟩ := refresh_images_listed fuel c reschedule w hlist hend
  obtain ⟨calls0, hres0, _⟩ := refresh_images_listed fuel (without_pool c p) reschedule w
    hlist (listings_end_without_pool fuel c p hend)
  have hnone := pool_entry_of_fails fuel c p hfail
  have hsame := built_images_without_pool fuel c p hnone
  refine ⟨_, hres, ?_, _, hres0, ?_, ?_⟩
  · simp only [install_m_images, built_images, hnone, ite_self]
  · intro q _
    simp only [install_m_images, hsame]
  · simp only [hsame]

/-- C8 on `example_cluster`: pool 4, whose directory listing fails, has no
entry, and the watcher is left as by the scan of the other three pools. -/
theorem C8_pool_error_isolated_witness :
    0 ≤ example_cluster.pool_list2.1 ∧ listings_end 1 example_cluster ∧
    pool_fails 1 example_cluster 4 ∧
    ∃ res, refresh_images 1 example_cluster true watcher_prev = some res ∧
      res.1.m_images 4 = none ∧
      ∃ res0, refresh_images 1 (without_pool example_cluster 4) true watcher_prev
          = some res0 ∧
        (∀ q, q ≠ 4 → res.1.m_images q = res0.1.m_images q) ∧ res.1 = res0.1 :=
  have hfail : pool_fails 1 example_cluster 4 :=
    Or.inr (Or.inr (Or.inr ⟨_, example_cluster_broken, "", List.mem_singleton_self _,
      by simp [listing_error, example_cluster, ENOENT]⟩))
  ⟨by decide, example_cluster_listings_end, hfail,
    C8_pool_error_isolated 1 example_cluster true watcher_prev (by decide)
      example_cluster_listings_end 4 hfail⟩

/-- C9: a failing pool listing leaves the image map exactly as it was before
the call (the call returns at once; no directory is listed and no map, empty
or partial, is installed). -/
theorem C9_pool_list_failure_keeps_images {τ : Type} (fuel : Nat) (c : Cluster)
    (reschedule : Bool) (w : PoolWatcher τ) (hfail : c.pool_list2.1 < 0) :
    ∃ res, refresh_images fuel c reschedule w = some res ∧
      res.1.m_images = w.m_images ∧ res.2 = [] :=
  ⟨_, refresh_images_list_error fuel c reschedule w hfail, rfl, rfl⟩

/-- C9 on `cluster_list_fails`: the entry of pool 9 survives the call. -/
theorem C9_pool_list_failure_keeps_images_witness :
    cluster_list_fails.pool_list2.1 < 0 ∧
    ∃ res, refresh_images 1 cluster_list_fails true watcher_prev = some res ∧
      res.1.m_images = watcher_prev.m_images ∧ res.2 = [] :=
  ⟨by decide,
    C9_pool_list_failure_keeps_images 1 cluster_list_fails true watcher_prev (by decide)⟩

/-! ## The claims about the listing loop -/

theorem filter_from_start (dir : StringMap) (hnames : ∀ e ∈ dir.entries, e.1 ≠ "") :
    dir.entries.filter (fun x => decide ("" < x.1)) = dir.entries := by
  rw [List.filter_eq_self]
  intro e he
  simpa using empty_lt_of_ne e.1 (hnames e he)

/-- The entry written for a pool that reaches its listing loop and whose
directory is paged faithfully: the set of all the ids, unless the number of
images is a multiple of `max_read` (zero included), in which case none. -/
theorem pool_entry_paged (fuel : Nat) (c : Cluster) (k : Int) (dir : StringMap)
    (hs : ¬ skipped c k) (hf : faithful_paging (c.dir_list k) dir)
    (hnames : ∀ e ∈ dir.entries, e.1 ≠ "") (hfuel : dir.size / max_read < fuel) :
    pool_entry fuel c k = if dir.size % max_read = 0 then none else some (dir_ids dir) := by
  have hstart := filter_from_start dir hnames
  obtain ⟨l, hl, hr, hids, _⟩ := list_images_paged (c.dir_list k) dir hf fuel "" ∅ []
    (by rw [hstart]; exact hfuel)
  rw [hstart] at hr hids
  rw [pool_entry_listed fuel c k hs, hl]
  show (if l.r > 0 then some l.image_ids else none) = _
  rw [hr, hids, Finset.empty_union]
  by_cases h0 : dir.size % max_read = 0
  · have h1 : dir.entries.length % max_read = 0 := h0
    have h2 : ¬ ((dir.entries.length % max_read : Nat) : Int) > 0 := by rw [h1]; decide
    rw [if_pos h0, if_neg h2]
  · have h1 : ¬ dir.entries.length % max_read = 0 := h0
    have h2 : ((dir.entries.length % max_read : Nat) : Int) > 0 := by omega
    rw [if_neg h0, if_pos h2]; rfl

/-- The listing loop over a faithfully paged directory, entered as
`refresh_images` enters it. -/
theorem list_images_paged_from_start (dl : String → Nat → Int × StringMap) (dir : StringMap)
    (hnames : ∀ e ∈ dir.entries, e.1 ≠ "") (hf : faithful_paging dl dir)
    (fuel : Nat) (hfuel : dir.size / max_read < fuel) :
    ∃ l, list_images dl fuel "" ∅ [] = some l ∧ l.image_ids = dir_ids dir ∧
      l.r = ((dir.size % max_read : Nat) : Int) ∧
      l.calls.length = dir.size / max_read + 1 := by
  have hstart := filter_from_start dir hnames
  obtain ⟨l, hl, hr, hids, hcalls⟩ := list_images_paged dl dir hf fuel "" ∅ []
    (by rw [hstart]; exact hfuel)
  rw [hstart] at hr hids hcalls
  refine ⟨l, hl, ?_, hr, ?_⟩
  · rw [hids, Finset.empty_union]; rfl
  · simpa [StringMap.size] using hcalls

theorem dir_upto_entries (n : Nat) :
    (dir_upto n).entries = (List.range n).map (fun i => (image_name i, image_name i)) := by
  simp only [dir_upto]

theorem dir_upto_names (n : Nat) : ∀ e ∈ (dir_upto n).entries, e.1 ≠ "" := by
  intro e he
  rw [dir_upto_entries, List.mem_map] at he
  obtain ⟨i, _, rfl⟩ := he
  intro h
  have h2 := congrArg String.data h
  exact absurd h2 (List.cons_ne_nil _ _)

theorem dir_upto_size (n : Nat) : (dir_upto n).size = n := by
  rw [StringMap.size, dir_upto_entries, List.length_map, List.length_range]

theorem paged_faithful (dir : StringMap) : faithful_paging (paged dir) dir :=
  fun _ _ => ⟨Or.inl (le_refl _), rfl⟩

theorem dir_empty_name_after_start :
    dir_empty_name.entries.filter (fun x => decide ("" < x.1)) = [("a", "id1")] := by
  have h1 : ¬ (("" : String) < "") := lt_irrefl _
  have h2 : ("" : String) < "a" := empty_lt_of_ne "a" (by decide)
  simp only [dir_empty_name, List.filter_cons, h1, h2, decide_True, decide_False, if_true,
    List.filter_nil]
  rfl

/-- C10 as stated fails on a directory that has an entry with the empty name.
The directory `dir_empty_name` (names `""` and `a`, distinct and in key order)
is paged faithfully and without error by `paged dir_empty_name`, yet for no
budget does the loop end with `image_ids` the set of both ids: the first call,
with the cursor `""`, returns only what comes after `""`, and the loop ends
with the one id `id1`. -/
theorem C10_empty_name_is_skipped :
    faithful_paging (paged dir_empty_name) dir_empty_name ∧
    (∃ l, list_images (paged dir_empty_name) 1 "" ∅ [] = some l ∧ l.image_ids = {"id1"}) ∧
    ¬ ∃ fuel l, list_images (paged dir_empty_name) fuel "" ∅ [] = some l ∧
      l.image_ids = dir_ids dir_empty_name := by
  have hf := paged_faithful dir_empty_name
  have key : ∀ fuel l, list_images (paged dir_empty_name) fuel "" ∅ [] = some l →
      l.image_ids = {"id1"} := by
    intro fuel l hl
    cases fuel with
    | zero => simp [list_images] at hl
    | succ fuel =>
      obtain ⟨l2, hl2, _, hids, _⟩ := list_images_paged (paged dir_empty_name) dir_empty_name
        hf (fuel + 1) "" ∅ [] (by
          rw [dir_empty_name_after_start]
          simp [max_read])
      rw [hl] at hl2
      cases hl2
      rw [hids, dir_empty_name_after_start]
      decide
  refine ⟨hf, ?_, ?_⟩
  · obtain ⟨l, hl⟩ := list_images_paged_ends (paged dir_empty_name) dir_empty_name hf 1
      (by simp [StringMap.size, dir_empty_name, max_read]) "" ∅ []
    exact ⟨l, hl, key 1 l hl⟩
  · rintro ⟨fuel, l, hl, hids⟩
    rw [key fuel l hl] at hids
    have hmem : "id0" ∈ dir_ids dir_empty_name := by
      simp [dir_ids, dir_empty_name]
    rw [← hids] at hmem
    exact absurd hmem (by decide)

/-- C10, amended: the pagination loop is totally correct over a directory in
which no entry has the empty name.  Over such a directory of any size (names
distinct and in key order) that is paged faithfully and without error, the
`do`-`while` loop entered with the cursor `""` and the empty set ends — within
`size / 1024 + 1` calls of `dir_list`, and after exactly that many — and on
exit `image_ids` is the set of the ids of all the entries; `r` is the size of
the last page. -/
theorem C10_pagination_total (dl : String → Nat → Int × StringMap) (dir : StringMap)
    (hnames : ∀ e ∈ dir.entries, e.1 ≠ "") (hf : faithful_paging dl dir)
    (fuel : Nat) (hfuel : dir.size / max_read < fuel) :
    ∃ l, list_images dl fuel "" ∅ [] = some l ∧ l.image_ids = dir_ids dir ∧
      l.r = ((dir.size % max_read : Nat) : Int) ∧
      l.calls.length = dir.size / max_read + 1 :=
  list_images_paged_from_start dl dir hnames hf fuel hfuel

/-- C10 at a directory of 1025 images: a full first page of 1024, the cursor
moved to its last key, and a second page with the one image that is left; two
calls of `dir_list` read all 1025 ids. -/
theorem C10_pagination_total_witness :
    (∀ e ∈ (dir_upto 1025).entries, e.1 ≠ "") ∧
    faithful_paging (paged (dir_upto 1025)) (dir_upto 1025) ∧
    (dir_upto 1025).size / max_read < 2 ∧
    ∃ l, list_images (paged (dir_upto 1025)) 2 "" ∅ [] = some l ∧
      l.image_ids = dir_ids (dir_upto 1025) ∧ l.r = 1 ∧ l.calls.length = 2 := by
  have hsize := dir_upto_size 1025
  have hfuel : (dir_upto 1025).size / max_read < 2 := by rw [hsize]; decide
  obtain ⟨l, hl, hids, hr, hc⟩ := C10_pagination_total (paged (dir_upto 1025))
    (dir_upto 1025) (dir_upto_names 1025) (paged_faithful _) 2 hfuel
  refine ⟨dir_upto_names 1025, paged_faithful _, hfuel, l, hl, hids, ?_, ?_⟩
  · rw [hr, hsize]; rfl
  · rw [hc, hsize]; rfl

theorem dir_1024_entries :
    dir_1024.entries = (List.range 1024).map (fun i => (image_name i, image_name i)) := by
  simp only [dir_1024]

theorem dir_1024_names : ∀ e ∈ dir_1024.entries, e.1 ≠ "" := by
  intro e he
  rw [dir_1024_entries, List.mem_map] at he
  obtain ⟨i, _, rfl⟩ := he
  intro h
  have h2 := congrArg String.data h
  exact absurd h2 (List.cons_ne_nil _ _)

theorem dir_1024_size : dir_1024.size = 1024 := by
  rw [StringMap.size, dir_1024_entries, List.length_map, List.length_range]

/-- C1 (the code departs from it): a pool of exactly 1024 images gets no entry.
On the cluster `cluster_1024`, whose one pool (id 1) is a base tier with
mirroring enabled and whose directory of 1024 images is paged faithfully, the
listing loop reads all 1024 ids and ends on the empty second page with
`r = 0`; the test `r > 0` then drops the pool, and the image map after the
call has no entry for pool 1. -/
theorem C1_pool_of_1024_images_has_no_entry :
    dir_1024.size = 1024 ∧ faithful_paging (cluster_1024.dir_list 1) dir_1024 ∧
    ¬ skipped cluster_1024 1 ∧
    (∃ l, list_images (cluster_1024.dir_list 1) 2 "" ∅ [] = some l ∧
      l.image_ids = dir_ids dir_1024 ∧ l.r = 0 ∧ l.calls.length = 2) ∧
    ∃ res, refresh_images 2 cluster_1024 false (PoolWatcher.init (30 : Nat)) = some res ∧
      res.1.m_images 1 = none := by
  have hf : faithful_paging (cluster_1024.dir_list 1) dir_1024 :=
    fun _ _ => ⟨Or.inl (le_refl _), rfl⟩
  have hs : ¬ skipped cluster_1024 1 := by simp [skipped, cluster_1024]
  have hfuel : dir_1024.size / max_read < 2 := by rw [dir_1024_size]; decide
  have hloop := list_images_paged_from_start (cluster_1024.dir_list 1) dir_1024 dir_1024_names
    hf 2 hfuel
  have hend : listings_end 2 cluster_1024 := by
    apply listings_end_of
    intro kv hkv
    simp only [cluster_1024, List.mem_singleton] at hkv
    subst hkv
    obtain ⟨l, hl, _⟩ := hloop
    exact Or.inr ⟨l, hl⟩
  obtain ⟨calls, hres, _⟩ := refresh_images_listed 2 cluster_1024 false
    (PoolWatcher.init (30 : Nat)) (by decide) hend
  refine ⟨dir_1024_size, hf, hs, ?_, _, hres, ?_⟩
  · obtain ⟨l, hl, hids, hr, hc⟩ := hloop
    refine ⟨l, hl, hids, ?_, ?_⟩
    · rw [hr, dir_1024_size]; rfl
    · rw [hc, dir_1024_size]; rfl
  · simp only [install_m_images, built_images]
    rw [pool_entry_paged 2 cluster_1024 1 dir_1024 hs hf dir_1024_names hfuel, dir_1024_size]
    simp [max_read]

end rbd.mirror
